import Mathlib

/-!
# Verification of the country-domination hangman game logic

A shallow embedding, in Lean 4, of the game-progression logic of
`script.js` (the local-storage variant of the game; `part_000` is the
near-identical Firebase variant).  Pure string processing (`cleanWord`)
is modelled on `List Char`; the mutable `gameState` object is modelled
as an explicit `GameState` structure threaded through the transition
functions; DOM writes are dropped and the observable outputs (modal
signals and `localStorage` saves) are collected in an explicit `Effect`
list.
-/

/-! ## JavaScript character-class helpers

`\s` in an ECMAScript regex (and the character set removed by
`String.prototype.trim`) is the set of white-space characters and line
terminators below. -/

/-- The ECMAScript `\s` character class (WhiteSpace ∪ LineTerminator). -/
def jsWs (c : Char) : Bool :=
  let n := c.toNat
  n = 0x20 || n = 0x9 || n = 0xa || n = 0xb || n = 0xc || n = 0xd ||
  n = 0xa0 || n = 0x1680 || (decide (0x2000 ≤ n) && decide (n ≤ 0x200a)) ||
  n = 0x2028 || n = 0x2029 || n = 0x202f || n = 0x205f || n = 0x3000 || n = 0xfeff

/-- ECMAScript LineTerminator characters (the characters `.` does not match). -/
def jsLineTerm (c : Char) : Bool :=
  let n := c.toNat
  n = 0xa || n = 0xd || n = 0x2028 || n = 0x2029

/-- An uppercase Latin letter `A`-`Z` (the regex class `[A-Z]`). -/
def isUpperAZ (c : Char) : Bool :=
  decide (0x41 ≤ c.toNat) && decide (c.toNat ≤ 0x5a)

/-- Single-character fragment of JavaScript `String.prototype.toUpperCase`:
simple Unicode uppercase mapping for ASCII, Latin-1 and the Latin
Extended-A case pairs (the identity on other characters; the rare
multi-character expansions such as `ß → SS` do not occur in the inputs
considered here). -/
def jsUpperChar (c : Char) : Char :=
  let n := c.toNat
  if 0x61 ≤ n ∧ n ≤ 0x7a then Char.ofNat (n - 0x20)
  else if 0xe0 ≤ n ∧ n ≤ 0xfe ∧ n ≠ 0xf7 then Char.ofNat (n - 0x20)
  else if 0x100 ≤ n ∧ n ≤ 0x177 ∧ n % 2 = 1 then Char.ofNat (n - 1)
  else if 0x17a ≤ n ∧ n ≤ 0x17e ∧ n % 2 = 0 then Char.ofNat (n - 1)
  else c

/-- JavaScript `.toUpperCase()` on a string, character by character. -/
def jsToUpperCase (cs : List Char) : List Char := cs.map jsUpperChar

/-! ## The regex `/\s*\(.*?\)\s*/g`

`cleanWord` removes every parenthesized segment together with the
white-space around it.  The match at a given position is: a greedy run
of `\s`, a literal `(`, a non-greedy run of `.` (which does not cross a
line terminator), a literal `)`, and a greedy run of `\s`.  The scan
below reproduces the leftmost-match / continue-after-match behaviour of
a global `replace` with the empty string. -/

/-- Drop the leading run of ECMAScript white-space. -/
def dropJsWs : List Char → List Char
  | [] => []
  | c :: rest => if jsWs c then dropJsWs rest else c :: rest

/-- The remainder of the list after the first `)`, provided no line
terminator intervenes (the regex `.*?\)`). -/
def afterClose : List Char → Option (List Char)
  | [] => none
  | c :: rest =>
    if c = ')' then some rest
    else if jsLineTerm c then none
    else afterClose rest

/-- If the regex `\s*\(.*?\)\s*` matches at the head of the list,
return the remainder after the whole match. -/
def parenMatchEnd (cs : List Char) : Option (List Char) :=
  match dropJsWs cs with
  | '(' :: tail =>
    match afterClose tail with
    | some rest => some (dropJsWs rest)
    | none => none
  | _ => none

/-- One global-replace pass of `/\s*\(.*?\)\s*/g` with `''`, with
explicit fuel (each step consumes at least one character, so fuel equal
to the length of the input is always sufficient). -/
def stripParensFuel : Nat → List Char → List Char
  | 0, cs => cs
  | _ + 1, [] => []
  | fuel + 1, c :: rest =>
    match parenMatchEnd (c :: rest) with
    | some rest2 => stripParensFuel fuel rest2
    | none => c :: stripParensFuel fuel rest

/-- `.replace(/\s*\(.*?\)\s*/g, '')`. -/
def stripParens (cs : List Char) : List Char := stripParensFuel cs.length cs

/-! ## `.normalize("NFD")` and combining-mark stripping -/

/-- Canonical (NFD) decompositions used here: base letter and combining
mark for the precomposed Latin-1 letters (upper and lower case).  Each
row is `(precomposed, base, combining mark)`. -/
def nfdTable : List (Nat × Nat × Nat) :=
  [ (0xc0, 0x41, 0x300), (0xc1, 0x41, 0x301), (0xc2, 0x41, 0x302),
    (0xc3, 0x41, 0x303), (0xc4, 0x41, 0x308), (0xc5, 0x41, 0x30a),
    (0xc7, 0x43, 0x327), (0xc8, 0x45, 0x300), (0xc9, 0x45, 0x301),
    (0xca, 0x45, 0x302), (0xcb, 0x45, 0x308), (0xcc, 0x49, 0x300),
    (0xcd, 0x49, 0x301), (0xce, 0x49, 0x302), (0xcf, 0x49, 0x308),
    (0xd1, 0x4e, 0x303), (0xd2, 0x4f, 0x300), (0xd3, 0x4f, 0x301),
    (0xd4, 0x4f, 0x302), (0xd5, 0x4f, 0x303), (0xd6, 0x4f, 0x308),
    (0xd9, 0x55, 0x300), (0xda, 0x55, 0x301), (0xdb, 0x55, 0x302),
    (0xdc, 0x55, 0x308), (0xdd, 0x59, 0x301),
    (0xe0, 0x61, 0x300), (0xe1, 0x61, 0x301), (0xe2, 0x61, 0x302),
    (0xe3, 0x61, 0x303), (0xe4, 0x61, 0x308), (0xe5, 0x61, 0x30a),
    (0xe7, 0x63, 0x327), (0xe8, 0x65, 0x300), (0xe9, 0x65, 0x301),
    (0xea, 0x65, 0x302), (0xeb, 0x65, 0x308), (0xec, 0x69, 0x300),
    (0xed, 0x69, 0x301), (0xee, 0x69, 0x302), (0xef, 0x69, 0x308),
    (0xf1, 0x6e, 0x303), (0xf2, 0x6f, 0x300), (0xf3, 0x6f, 0x301),
    (0xf4, 0x6f, 0x302), (0xf5, 0x6f, 0x303), (0xf6, 0x6f, 0x308),
    (0xf9, 0x75, 0x300), (0xfa, 0x75, 0x301), (0xfb, 0x75, 0x302),
    (0xfc, 0x75, 0x308), (0xfd, 0x79, 0x301) ]

/-- NFD decomposition of one character (identity when no decomposition
is listed). -/
def nfdChar (c : Char) : List Char :=
  match nfdTable.find? (fun p => p.1 = c.toNat) with
  | some (_, b, m) => [Char.ofNat b, Char.ofNat m]
  | none => [c]

/-- `.normalize("NFD")` on a string. -/
def jsNFD (cs : List Char) : List Char := cs.flatMap nfdChar

/-- A combining diacritical mark, the regex class `[̀-ͯ]`. -/
def isCombiningMark (c : Char) : Bool :=
  decide (0x300 ≤ c.toNat) && decide (c.toNat ≤ 0x36f)

/-- `.replace(/[̀-ͯ]/g, "")`. -/
def stripCombining (cs : List Char) : List Char :=
  cs.filter (fun c => !(isCombiningMark c))

/-- `.replace(/[^A-Z\s]/g, '')`: keep only uppercase Latin letters and
`\s`-class characters. -/
def keepLatinSpace (cs : List Char) : List Char :=
  cs.filter (fun c => isUpperAZ c || jsWs c)

/-- `.trim()`: drop white space from both ends. -/
def jsTrim (cs : List Char) : List Char :=
  ((dropJsWs cs).reverse |> dropJsWs).reverse

/-- `cleanWord` from `script.js` (lines 90-97): uppercase, remove
parenthesized segments with surrounding white-space, NFD-decompose and
strip combining marks, remove everything that is not `[A-Z\s]`, trim. -/
def cleanWord (cs : List Char) : List Char :=
  jsTrim (keepLatinSpace (stripCombining (jsNFD (stripParens (jsToUpperCase cs)))))

/-- `cleanWord` wrapped on `String`. -/
def cleanWordStr (s : String) : String := String.mk (cleanWord s.data)

/-- The name `Côte d'Ivoire (disputed)` (the apostrophe is `U+0027`). -/
def coteDIvoireDisputed : String :=
  String.mk ['C', 'ô', 't', 'e', ' ', 'd', Char.ofNat 0x27,
             'I', 'v', 'o', 'i', 'r', 'e', ' ',
             '(', 'd', 'i', 's', 'p', 'u', 't', 'e', 'd', ')']

/-! ## Game state

The mutable `gameState` object of `script.js` (lines 18-33).  DOM-only
fields are dropped; `continentStatus` is a map from the five continents
to the JavaScript value stored under that key (absent, the strings
`'available'` / `'dominated'` / `'in-progress'`, or the in-progress
object `{status, countries}`). -/

/-- The fixed `CONTINENTS` enumeration. -/
inductive Continent
  | africa | americas | asia | europe | oceania
deriving DecidableEq, Repr, Fintype

/-- The list `CONTINENTS` (line 9). -/
def CONTINENTS : List Continent :=
  [.africa, .americas, .asia, .europe, .oceania]

/-- A JavaScript value stored in `gameState.continentStatus[c]`: either
a plain string (`'available'`, `'dominated'`, after `initializeAppUI`
possibly `'in-progress'`) or the object `{status, countries}` written on
a country win. -/
inductive JsStatus
  | str (s : String)
  | obj (status : String) (countries : List String)
deriving DecidableEq, Repr

/-- A record of `gameState.countries` (built in `loadContinent`). -/
structure Country where
  name : String
  flag : String
  key : String
  isDominated : Bool
deriving DecidableEq, Repr

/-- Placeholder country record (used only for an out-of-range index;
`newRound` always indexes within range). -/
def dfltCountry : Country := ⟨"", "", "", false⟩

/-- `MAX_TROOPS` (line 10). -/
def MAX_TROOPS : Int := 3

/-- The `gameState` object.  `guessedLetters` is the JS `Set` in
insertion order; `troops` is an `Int` so that "never negative" is a
real statement; `currentCountry` is the record of the country being
guessed (set by `newRound` before any code that reads it runs). -/
structure GameState where
  currentView : String
  continentStatus : Continent → Option JsStatus
  currentStreak : Nat
  bestStreak : Nat
  currentContinent : Continent
  countries : List Country
  dominated : List String
  currentCountry : Country
  targetWord : List Char
  guessedLetters : List Char
  troops : Int
  isGameActive : Bool

/-- Observable outputs of a transition: `localStorage` writes
(`saveGameStateToStorage`, with the snapshot it persists) and the
modal signals raised through `handleModal`, tagged by call site. -/
inductive Effect
  | save (bestStreak : Nat) (status : Continent → Option JsStatus)
  | modalWin (countryName : String) (streak : Nat)
  | modalLoss (countryName : String)
  | modalContinent (c : Continent)
  | modalGlobal

/-- Is the effect the "country dominated" (win) modal? -/
def Effect.isWin : Effect → Bool
  | .modalWin _ _ => true
  | _ => false

/-- Is the effect the "troops depleted" (loss) modal? -/
def Effect.isLoss : Effect → Bool
  | .modalLoss _ => true
  | _ => false

/-- Is the effect a `localStorage` save? -/
def Effect.isSave : Effect → Bool
  | .save _ _ => true
  | _ => false

/-- Is the effect the global-victory modal? -/
def Effect.isGlobal : Effect → Bool
  | .modalGlobal => true
  | _ => false

/-- Number of win modals in an effect trace. -/
def winCount (effs : List Effect) : Nat := effs.countP (fun e => e.isWin)

/-- Number of saves in an effect trace. -/
def saveCount (effs : List Effect) : Nat := effs.countP (fun e => e.isSave)

/-- Is a win modal present? -/
def hasWin (effs : List Effect) : Bool := effs.any (fun e => e.isWin)

/-- Is a loss modal present? -/
def hasLoss (effs : List Effect) : Bool := effs.any (fun e => e.isLoss)

/-! ## Transition functions -/

/-- `renderStreak` (lines 169-177): promotes `currentStreak` to
`bestStreak` when it is larger and then persists (the DOM write is
dropped). -/
def renderStreak (s : GameState) : GameState × List Effect :=
  if s.currentStreak > s.bestStreak then
    let s1 := { s with bestStreak := s.currentStreak }
    (s1, [Effect.save s1.bestStreak s1.continentStatus])
  else (s, [])

/-- The set of letters of `targetWord` that must be guessed:
`targetWord.replace(/\s/g, '').split('')` as a list (line 387); the
win test quantifies over it. -/
def wordLetters (w : List Char) : List Char := w.filter (fun c => !(jsWs c))

/-- `correctlyGuessed` (line 388): every non-white-space character of
`targetWord` is in `guessedLetters`. -/
def winCondB (s : GameState) : Bool :=
  (wordLetters s.targetWord).all (fun c => s.guessedLetters.contains c)

/-- Mark the first record with the given key as dominated (the JS
`find` returns a reference that is then mutated in place,
lines 399-401). -/
def markDominated (key : String) : List Country → List Country
  | [] => []
  | c :: rest =>
    if c.key == key then { c with isDominated := true } :: rest
    else c :: markDominated key rest

/-- `checkGameStatus` (lines 384-432). -/
def checkGameStatus (s : GameState) : GameState × List Effect :=
  if s.isGameActive = false then (s, [])
  else if winCondB s then
    let s1 := { s with isGameActive := false, currentStreak := s.currentStreak + 1 }
    let s2 := (renderStreak s1).1
    let e1 := (renderStreak s1).2
    let countryKey := s2.currentCountry.key
    let s3 :=
      match s2.countries.find? (fun c => c.key == countryKey) with
      | some countryInList =>
        { s2 with countries := markDominated countryKey s2.countries,
                  dominated := s2.dominated ++ [countryInList.name] }
      | none => s2
    let s4 := { s3 with continentStatus := fun c =>
        if c = s3.currentContinent then some (.obj "in-progress" s3.dominated)
        else s3.continentStatus c }
    (s4, e1 ++ [Effect.save s4.bestStreak s4.continentStatus,
                Effect.modalWin s4.currentCountry.name s4.currentStreak])
  else if s.troops ≤ 0 then
    let s1 := { s with isGameActive := false }
    (s1, [Effect.modalLoss s1.currentCountry.name])
  else (s, [])

/-- `guessLetter` (lines 351-382). -/
def guessLetter (letter : Char) (s : GameState) : GameState × List Effect :=
  if s.isGameActive = false then (s, [])
  else
    let upperLetter := jsUpperChar letter
    if s.guessedLetters.contains upperLetter then (s, [])
    else
      let s1 := { s with guessedLetters := s.guessedLetters ++ [upperLetter] }
      if s1.targetWord.contains upperLetter then
        checkGameStatus s1
      else
        let s2 := { s1 with troops := s1.troops - 1, currentStreak := 0 }
        let s3 := (renderStreak s2).1
        let e1 := (renderStreak s2).2
        ((checkGameStatus s3).1, e1 ++ (checkGameStatus s3).2)

/-- Run a list of `guessLetter` calls, concatenating the effects. -/
def runGuesses (gs : List Char) (s : GameState) : GameState × List Effect :=
  match gs with
  | [] => (s, [])
  | c :: rest =>
    ((runGuesses rest (guessLetter c s).1).1,
     (guessLetter c s).2 ++ (runGuesses rest (guessLetter c s).1).2)

/-- `handleContinentWin` (lines 434-468): mark the continent dominated,
persist, and raise either the global-victory or the
continent-conquered modal. -/
def handleContinentWin (s : GameState) : GameState × List Effect :=
  let s1 := { s with continentStatus := fun c =>
      if c = s.currentContinent then some (.str "dominated")
      else s.continentStatus c }
  let e1 := [Effect.save s1.bestStreak s1.continentStatus]
  let allDominated :=
    CONTINENTS.all (fun c => s1.continentStatus c == some (.str "dominated"))
  if allDominated then (s1, e1 ++ [Effect.modalGlobal])
  else (s1, e1 ++ [Effect.modalContinent s1.currentContinent])

/-- `newRound` (lines 322-349).  `pick` stands for the value of
`Math.floor(Math.random() * availableCountries.length)`; it is reduced
modulo the number of available countries, which is the identity on the
range the source can produce. -/
def newRound (pick : Nat) (s : GameState) : GameState × List Effect :=
  let availableCountries := s.countries.filter (fun c => !c.isDominated)
  if availableCountries.length = 0 then handleContinentWin s
  else
    let chosen := availableCountries.getD (pick % availableCountries.length) dfltCountry
    let s1 := { s with currentCountry := chosen,
                       targetWord := cleanWord chosen.name.data,
                       guessedLetters := [],
                       troops := MAX_TROOPS,
                       isGameActive := true }
    renderStreak s1

/-- The `backToMapButton.onclick` handler (lines 514-519): stop the
round, zero the streak and return to the continent map. -/
def backToMap (s : GameState) : GameState :=
  { s with isGameActive := false, currentStreak := 0,
           currentView := "continentSelect" }

/-! ## Continent load (`loadContinent`, lines 273-320)

The `fetch`/`await` plumbing is external; the embedding starts from the
decoded JSON array.  A raw API record carries the fields the code
reads: `name.common`, `flags.svg`, `population` and `area`. -/

/-- A decoded record of the REST-countries response. -/
structure RawCountry where
  nameCommon : String
  flagSvg : String
  population : Nat
  area : Nat
deriving DecidableEq, Repr

/-- `getCountryKey` (lines 99-101). -/
def getCountryKey (c : RawCountry) : String :=
  cleanWordStr c.nameCommon ++ toString c.area

/-- The filter and map of lines 281-288 (`c.name.common && c.flags.svg
&& c.population > 100000`; a JS string is truthy iff non-empty). -/
def fetchedCountries (data : List RawCountry) : List Country :=
  (data.filter (fun c =>
      c.nameCommon ≠ "" && c.flagSvg ≠ "" && c.population > 100000)).map
    (fun c => { name := c.nameCommon, flag := c.flagSvg,
                key := getCountryKey c, isDominated := false })

/-- The success path of `loadContinent` (lines 281-313) up to but not
including the final `newRound()` call: build the country list, fail
(`throw`) when it is empty, merge previously dominated names stored for
the continent (the `continentStatus.countries` check of line 297 is
true exactly when the stored value is the in-progress object), and
rebuild `gameState.dominated` from the marked list (line 308, which
overwrites the `push`es of line 301). -/
def loadContinentCore (continent : Continent) (data : List RawCountry)
    (s : GameState) : Option GameState :=
  let countries := fetchedCountries data
  if countries.length = 0 then none
  else
    let countries1 :=
      match s.continentStatus continent with
      | some (.obj _ storedNames) =>
        countries.map (fun c =>
          if storedNames.contains c.name then { c with isDominated := true }
          else c)
      | _ => countries
    some { s with currentContinent := continent,
                  countries := countries1,
                  dominated := (countries1.filter (fun c => c.isDominated)).map
                    (fun c => c.name) }

/-! ## Persistence (`localStorage`) and the global-victory reset

The two `localStorage` entries, typed: the best streak
(string-encoded integer) and the continent-status JSON object.  `save`
(lines 144-150) snapshots `gameState.bestStreak` and
`gameState.continentStatus`; `load` (lines 119-141) merges stored
values into the in-memory state, key by key. -/

/-- The persisted snapshot. -/
structure Store where
  best : Option Nat
  status : Continent → Option JsStatus

/-- `saveGameStateToStorage` (lines 144-150). -/
def saveStore (s : GameState) (_st : Store) : Store :=
  { best := some s.bestStreak, status := s.continentStatus }

/-- `loadGameStateFromStorage` (lines 119-141): take the stored best
streak when present and copy each stored continent entry over the
in-memory one. -/
def loadGameStateFromStorage (s : GameState) (st : Store) : GameState :=
  let s1 := match st.best with
    | some n => { s with bestStreak := n }
    | none => s
  { s1 with continentStatus := fun c =>
      match st.status c with
      | some v => some v
      | none => s1.continentStatus c }

/-- The state-relevant body of `initializeAppUI` (lines 483-523):
reload from storage, normalize each continent entry (absent or
`'available'` → `'available'`; any other string kept; the in-progress
object collapsed to its `status` string, or `'available'` when that is
empty), and show the menu view.  The listener wiring is DOM-only. -/
def initializeAppUIState (s : GameState) (st : Store) : GameState :=
  let s1 := loadGameStateFromStorage s st
  let s2 := { s1 with continentStatus := fun c =>
      match s1.continentStatus c with
      | none => some (.str "available")
      | some (.str t) => if t = "available" then some (.str "available")
                         else some (.str t)
      | some (.obj t _) => some (.str (if t = "" then "available" else t)) }
  { s2 with currentView := "menu" }

/-- Game state paired with the persisted store. -/
structure World where
  game : GameState
  store : Store

/-- The global-victory acknowledgment closure (lines 449-455): reset
every continent to `'available'`, persist, re-initialize the UI (which
reloads from the store just written) and show the menu. -/
def globalVictoryAck (w : World) : World :=
  let g1 := { w.game with continentStatus := fun _ => some (.str "available") }
  let st1 := saveStore g1 w.store
  let g2 := initializeAppUIState g1 st1
  { game := { g2 with currentView := "menu" }, store := st1 }

/-! ## Auxiliary predicates and concrete states for instantiation -/

/-- The `troopsRemaining` invariant of the spec: within `[0, 3]`, and
at least `1` while a round is active (a round at `0` troops has already
been deactivated by `checkGameStatus`). -/
def troopsInv (s : GameState) : Prop :=
  0 ≤ s.troops ∧ s.troops ≤ 3 ∧ (s.isGameActive = true → 1 ≤ s.troops)

/-- No run of two or more consecutive spaces. -/
def noDoubleSpace : List Char → Bool
  | [] => true
  | [_] => true
  | a :: b :: rest => !(a = ' ' && b = ' ') && noDoubleSpace (b :: rest)

/-- A freshly started round on a one-country continent whose cleaned
name is `w` (with a configurable `bestStreak`): the state `newRound`
produces, used to instantiate the universally quantified theorems. -/
def mkRound (w : String) (best : Nat) : GameState :=
  { currentView := "game"
    continentStatus := fun _ => none
    currentStreak := 0
    bestStreak := best
    currentContinent := .europe
    countries := [{ name := w, flag := "f", key := w ++ "0", isDominated := false }]
    dominated := []
    currentCountry := { name := w, flag := "f", key := w ++ "0", isDominated := false }
    targetWord := w.data
    guessedLetters := []
    troops := 3
    isGameActive := true }

/-- A session in which all five continents are dominated and the store
is in sync with the in-memory state. -/
def wAllDominated : World :=
  { game := { mkRound "PERU" 7 with
                continentStatus := fun _ => some (.str "dominated"),
                isGameActive := false },
    store := { best := some 7, status := fun _ => some (.str "dominated") } }

/-- The raw name `A & B`: the ampersand is removed by `cleanWord` but
the two spaces around it are kept, leaving a double space. -/
def nameAmpB : String := String.mk ['A', ' ', '&', ' ', 'B']

/-- A session with no active round. -/
def sInactive : GameState := { mkRound "AB" 0 with isGameActive := false }

/-- A session in which Africa has stored in-progress names
`Ghana`, `Kenya`. -/
def c7state : GameState :=
  { mkRound "PERU" 0 with continentStatus := fun c =>
      if c = .africa then some (.obj "in-progress" ["Ghana", "Kenya"]) else none }

/-- A fetched Africa result set: `Ghana` and `Togo`; the stored name
`Kenya` is not in it. -/
def c7data : List RawCountry :=
  [{ nameCommon := "Ghana", flagSvg := "g", population := 200000, area := 5 },
   { nameCommon := "Togo", flagSvg := "t", population := 200000, area := 6 }]

/-- The state `loadContinentCore` produces from `c7state` and
`c7data`. -/
def c7result : GameState :=
  { c7state with
      currentContinent := .africa,
      countries :=
        [{ name := "Ghana", flag := "g", key := "GHANA5", isDominated := true },
         { name := "Togo", flag := "t", key := "TOGO6", isDominated := false }],
      dominated := ["Ghana"] }

/-! ## Basic lemmas about the string pipeline -/

theorem mem_of_mem_dropJsWs {a : Char} : ∀ {l : List Char}, a ∈ dropJsWs l → a ∈ l := by
  intro l h
  induction l with
  | nil => simp [dropJsWs] at h
  | cons c rest ih =>
    by_cases hc : jsWs c
    · simp only [dropJsWs, hc, if_pos] at h
      exact List.mem_cons_of_mem c (ih h)
    · simpa [dropJsWs, hc] using h

theorem dropJsWs_head {c : Char} : ∀ {l : List Char} {t : List Char},
    dropJsWs l = c :: t → jsWs c = false := by
  intro l
  induction l with
  | nil => intro t h; simp [dropJsWs] at h
  | cons a rest ih =>
    intro t h
    rw [dropJsWs] at h
    by_cases ha : jsWs a = true
    · rw [if_pos ha] at h
      exact ih h
    · rw [if_neg ha] at h
      cases h
      simpa using ha

theorem dropJsWs_suffix : ∀ (l : List Char), ∃ pre, l = pre ++ dropJsWs l := by
  intro l
  induction l with
  | nil => exact ⟨[], rfl⟩
  | cons c rest ih =>
    by_cases hc : jsWs c
    · obtain ⟨pre, hpre⟩ := ih
      exact ⟨c :: pre, by simp [dropJsWs, hc, ← hpre]⟩
    · exact ⟨[], by simp [dropJsWs, hc]⟩

theorem mem_of_mem_jsTrim {a : Char} {l : List Char} (h : a ∈ jsTrim l) : a ∈ l := by
  unfold jsTrim at h
  have h1 := List.mem_reverse.mp h
  have h2 := mem_of_mem_dropJsWs h1
  have h3 := List.mem_reverse.mp h2
  exact mem_of_mem_dropJsWs h3

theorem jsTrim_head {l : List Char} {c : Char}
    (h : (jsTrim l).head? = some c) : jsWs c = false := by
  unfold jsTrim at h
  rw [List.head?_reverse] at h
  set k := dropJsWs (dropJsWs l).reverse with hk
  have hkne : k ≠ [] := by
    intro he
    rw [he] at h
    simp at h
  obtain ⟨pre, hpre⟩ := dropJsWs_suffix (dropJsWs l).reverse
  rw [← hk] at hpre
  have hlast : k.getLast? = ((dropJsWs l).reverse).getLast? := by
    rw [hpre]
    exact (List.getLast?_append_of_ne_nil pre hkne).symm
  rw [hlast, List.getLast?_reverse] at h
  cases hdl : dropJsWs l with
  | nil => rw [hdl] at h; simp at h
  | cons d t =>
    rw [hdl] at h
    simp only [List.head?] at h
    cases h
    exact dropJsWs_head hdl

theorem jsTrim_getLast {l : List Char} {c : Char}
    (h : (jsTrim l).getLast? = some c) : jsWs c = false := by
  unfold jsTrim at h
  rw [List.getLast?_reverse] at h
  cases hdl : dropJsWs (dropJsWs l).reverse with
  | nil => rw [hdl] at h; simp at h
  | cons d t =>
    rw [hdl] at h
    simp only [List.head?] at h
    cases h
    exact dropJsWs_head hdl

theorem mem_cleanWord_charset {name : List Char} {c : Char}
    (h : c ∈ cleanWord name) : isUpperAZ c = true ∨ jsWs c = true := by
  unfold cleanWord at h
  have h1 := mem_of_mem_jsTrim h
  have h2 := (List.mem_filter.mp h1).2
  exact Bool.or_eq_true _ _ ▸ h2

/-! ## Basic lemmas about the transition functions -/

theorem renderStreak_fst (s : GameState) :
    (renderStreak s).1 = { s with bestStreak := max s.bestStreak s.currentStreak } := by
  unfold renderStreak
  split
  · next h => rw [Nat.max_eq_right (Nat.le_of_lt h)]
  · next h => rw [Nat.max_eq_left (Nat.le_of_not_lt h)]

theorem renderStreak_effects (s : GameState) :
    winCount (renderStreak s).2 = 0 ∧ hasWin (renderStreak s).2 = false ∧
    hasLoss (renderStreak s).2 = false := by
  unfold renderStreak
  split <;> simp [winCount, hasWin, hasLoss, Effect.isWin, Effect.isLoss]

theorem renderStreak_save_of_increase (s : GameState)
    (h : s.bestStreak < (renderStreak s).1.bestStreak) :
    1 ≤ saveCount (renderStreak s).2 := by
  rw [renderStreak_fst] at h
  have hlt : s.bestStreak < s.currentStreak := by
    by_cases hc : s.currentStreak ≤ s.bestStreak
    · rw [Nat.max_eq_left hc] at h
      exact absurd h (lt_irrefl _)
    · exact Nat.lt_of_not_le hc
  unfold renderStreak
  rw [if_pos hlt]
  simp [saveCount, Effect.isSave]

theorem renderStreak_zero (s : GameState) (h : s.currentStreak = 0) :
    renderStreak s = (s, []) := by
  unfold renderStreak
  rw [if_neg (by rw [h]; exact Nat.not_lt_zero _)]

theorem checkGameStatus_inactive (s : GameState) (h : s.isGameActive = false) :
    checkGameStatus s = (s, []) := by
  unfold checkGameStatus
  rw [if_pos h]

theorem checkGameStatus_none (s : GameState) (ha : s.isGameActive = true)
    (hw : winCondB s = false) (ht : ¬ s.troops ≤ 0) :
    checkGameStatus s = (s, []) := by
  unfold checkGameStatus
  rw [if_neg (by simp [ha]), if_neg (by simp [hw]), if_neg ht]

theorem checkGameStatus_loss (s : GameState) (ha : s.isGameActive = true)
    (hw : winCondB s = false) (ht : s.troops ≤ 0) :
    checkGameStatus s = ({ s with isGameActive := false },
      [Effect.modalLoss s.currentCountry.name]) := by
  unfold checkGameStatus
  rw [if_neg (by simp [ha]), if_neg (by simp [hw]), if_pos ht]

theorem contains_mem {α : Type} [BEq α] [LawfulBEq α] {l : List α} {a : α} :
    l.contains a = true ↔ a ∈ l := List.elem_iff

theorem winCondB_eq (s t : GameState) (hw : t.targetWord = s.targetWord)
    (hg : t.guessedLetters = s.guessedLetters) : winCondB t = winCondB s := by
  unfold winCondB
  rw [hw, hg]

theorem winCondB_irrelevant (s : GameState) (u : Char)
    (h : s.targetWord.contains u = false) :
    winCondB { s with guessedLetters := s.guessedLetters ++ [u] } = winCondB s := by
  have hu : u ∉ s.targetWord := fun hm =>
    absurd (contains_mem.mpr hm) (by rw [h]; exact Bool.false_ne_true)
  unfold winCondB wordLetters
  apply Bool.coe_iff_coe.mp
  simp only [List.all_eq_true, List.mem_filter]
  constructor
  · intro hall x hx
    have h1 := contains_mem.mp (hall x hx)
    rw [contains_mem]
    rcases List.mem_append.mp h1 with h1 | h1
    · exact h1
    · exact absurd ((List.mem_singleton.mp h1) ▸ hx.1) hu
  · intro hall x hx
    have h1 := contains_mem.mp (hall x hx)
    rw [contains_mem]
    exact List.mem_append.mpr (Or.inl h1)

theorem checkGameStatus_win (s : GameState) (ha : s.isGameActive = true)
    (hw : winCondB s = true) :
    (checkGameStatus s).1.isGameActive = false ∧
    (checkGameStatus s).1.currentStreak = s.currentStreak + 1 ∧
    (checkGameStatus s).1.bestStreak = max s.bestStreak (s.currentStreak + 1) ∧
    (checkGameStatus s).1.guessedLetters = s.guessedLetters ∧
    (checkGameStatus s).1.targetWord = s.targetWord ∧
    (checkGameStatus s).1.troops = s.troops ∧
    winCount (checkGameStatus s).2 = 1 ∧
    hasWin (checkGameStatus s).2 = true ∧
    hasLoss (checkGameStatus s).2 = false ∧
    1 ≤ saveCount (checkGameStatus s).2 := by
  unfold checkGameStatus
  rw [if_neg (by simp [ha]), if_pos hw]
  dsimp only
  rw [renderStreak_fst]
  obtain ⟨he1, he2, he3⟩ := renderStreak_effects
    { s with isGameActive := false, currentStreak := s.currentStreak + 1 }
  split
  · refine ⟨rfl, rfl, rfl, rfl, rfl, rfl, ?_, ?_, ?_, ?_⟩
    · simp [winCount, List.countP_append, Effect.isWin]
      simpa [winCount] using he1
    · simp [hasWin, List.any_append, Effect.isWin]
    · simp [hasLoss, List.any_append, Effect.isLoss]
      simpa [hasLoss] using he3
    · simp [saveCount, List.countP_append, Effect.isSave]
  · refine ⟨rfl, rfl, rfl, rfl, rfl, rfl, ?_, ?_, ?_, ?_⟩
    · simp [winCount, List.countP_append, Effect.isWin]
      simpa [winCount] using he1
    · simp [hasWin, List.any_append, Effect.isWin]
    · simp [hasLoss, List.any_append, Effect.isLoss]
      simpa [hasLoss] using he3
    · simp [saveCount, List.countP_append, Effect.isSave]


theorem checkGameStatus_winCondB (s : GameState) :
    winCondB (checkGameStatus s).1 = winCondB s := by
  by_cases ha : s.isGameActive = true
  · by_cases hw : winCondB s = true
    · obtain ⟨_, _, _, hg, htw, _⟩ := checkGameStatus_win s ha hw
      exact winCondB_eq s _ htw hg
    · have hw' : winCondB s = false := by simpa using hw
      by_cases ht : s.troops ≤ 0
      · rw [checkGameStatus_loss s ha hw' ht]
        rfl
      · rw [checkGameStatus_none s ha hw' ht]
  · rw [checkGameStatus_inactive s (by simpa using ha)]

theorem guessLetter_inactive (c : Char) (s : GameState) (h : s.isGameActive = false) :
    guessLetter c s = (s, []) := by
  unfold guessLetter
  rw [if_pos h]

theorem guessLetter_dup (c : Char) (s : GameState) (ha : s.isGameActive = true)
    (hc : s.guessedLetters.contains (jsUpperChar c) = true) :
    guessLetter c s = (s, []) := by
  unfold guessLetter
  rw [if_neg (by simp [ha])]
  dsimp only
  rw [if_pos hc]

theorem guessLetter_correct (c : Char) (s : GameState) (ha : s.isGameActive = true)
    (hc : s.guessedLetters.contains (jsUpperChar c) = false)
    (ht : s.targetWord.contains (jsUpperChar c) = true) :
    guessLetter c s =
      checkGameStatus { s with guessedLetters := s.guessedLetters ++ [jsUpperChar c] } := by
  unfold guessLetter
  rw [if_neg (by simp [ha])]
  dsimp only
  rw [if_neg (by rw [hc]; exact Bool.false_ne_true), if_pos ht]

theorem guessLetter_wrong (c : Char) (s : GameState) (ha : s.isGameActive = true)
    (hc : s.guessedLetters.contains (jsUpperChar c) = false)
    (ht : s.targetWord.contains (jsUpperChar c) = false) :
    guessLetter c s =
      checkGameStatus { s with guessedLetters := s.guessedLetters ++ [jsUpperChar c],
                               troops := s.troops - 1, currentStreak := 0 } := by
  unfold guessLetter
  rw [if_neg (by simp [ha])]
  dsimp only
  rw [if_neg (by rw [hc]; exact Bool.false_ne_true),
      if_neg (by rw [ht]; exact Bool.false_ne_true)]
  rw [renderStreak_zero _ rfl]
  simp

theorem runGuesses_inactive (gs : List Char) (s : GameState)
    (h : s.isGameActive = false) : runGuesses gs s = (s, []) := by
  induction gs with
  | nil => rfl
  | cons c rest ih =>
    show ((runGuesses rest (guessLetter c s).1).1,
          (guessLetter c s).2 ++ (runGuesses rest (guessLetter c s).1).2) = (s, [])
    rw [guessLetter_inactive c s h]
    simpa using ih

theorem winCount_append (a b : List Effect) :
    winCount (a ++ b) = winCount a + winCount b := List.countP_append _ _ _

theorem guessLetter_winCount (c : Char) (s : GameState)
    (ha : s.isGameActive = true) (hw : winCondB s = false) :
    winCount (guessLetter c s).2 =
      (if winCondB (guessLetter c s).1 = true then 1 else 0) ∧
    (winCondB (guessLetter c s).1 = true → (guessLetter c s).1.isGameActive = false) := by
  by_cases hc : s.guessedLetters.contains (jsUpperChar c) = true
  · rw [guessLetter_dup c s ha hc]
    constructor
    · show winCount [] = if winCondB s = true then 1 else 0
      rw [hw]
      rfl
    · intro h
      have h' : winCondB s = true := h
      rw [hw] at h'
      exact absurd h' Bool.false_ne_true
  · have hc' : s.guessedLetters.contains (jsUpperChar c) = false := by simpa using hc
    by_cases ht : s.targetWord.contains (jsUpperChar c) = true
    · rw [guessLetter_correct c s ha hc' ht]
      set s1 : GameState :=
        { s with guessedLetters := s.guessedLetters ++ [jsUpperChar c] } with hs1
      have ha1 : s1.isGameActive = true := ha
      have hcg := checkGameStatus_winCondB s1
      by_cases hw1 : winCondB s1 = true
      · obtain ⟨hact, _, _, _, _, _, hwc, _, _, _⟩ := checkGameStatus_win s1 ha1 hw1
        refine ⟨?_, fun _ => hact⟩
        rw [hcg, if_pos hw1]
        exact hwc
      · have hw1' : winCondB s1 = false := by simpa using hw1
        refine ⟨?_, fun hcon => ?_⟩
        · rw [hcg, if_neg (by rw [hw1']; exact Bool.false_ne_true)]
          by_cases ht0 : s1.troops ≤ 0
          · rw [checkGameStatus_loss s1 ha1 hw1' ht0]
            rfl
          · rw [checkGameStatus_none s1 ha1 hw1' ht0]
            rfl
        · rw [hcg] at hcon
          exact absurd hcon hw1
    · have ht' : s.targetWord.contains (jsUpperChar c) = false := by simpa using ht
      rw [guessLetter_wrong c s ha hc' ht']
      set s2 : GameState :=
        { s with guessedLetters := s.guessedLetters ++ [jsUpperChar c],
                 troops := s.troops - 1, currentStreak := 0 } with hs2
      have ha2 : s2.isGameActive = true := ha
      have hw2 : winCondB s2 = false := by
        have e1 : winCondB s2 =
            winCondB { s with guessedLetters := s.guessedLetters ++ [jsUpperChar c] } :=
          winCondB_eq { s with guessedLetters := s.guessedLetters ++ [jsUpperChar c] } s2
            rfl rfl
        rw [e1, winCondB_irrelevant s _ ht']
        exact hw
      have hcg := checkGameStatus_winCondB s2
      refine ⟨?_, fun hcon => ?_⟩
      · rw [hcg, if_neg (by rw [hw2]; exact Bool.false_ne_true)]
        by_cases ht0 : s2.troops ≤ 0
        · rw [checkGameStatus_loss s2 ha2 hw2 ht0]
          rfl
        · rw [checkGameStatus_none s2 ha2 hw2 ht0]
          rfl
      · rw [hcg, hw2] at hcon
        exact absurd hcon Bool.false_ne_true

theorem runGuesses_winCount (gs : List Char) :
    ∀ s : GameState, s.isGameActive = true → winCondB s = false →
      winCount (runGuesses gs s).2 =
        (if winCondB (runGuesses gs s).1 = true then 1 else 0) := by
  induction gs with
  | nil =>
    intro s _ hw
    show winCount [] = if winCondB s = true then 1 else 0
    rw [hw]
    rfl
  | cons c rest ih =>
    intro s ha hw
    show winCount ((guessLetter c s).2 ++ (runGuesses rest (guessLetter c s).1).2) =
      if winCondB (runGuesses rest (guessLetter c s).1).1 = true then 1 else 0
    obtain ⟨hstep, hinact⟩ := guessLetter_winCount c s ha hw
    rw [winCount_append]
    by_cases h1 : winCondB (guessLetter c s).1 = true
    · rw [runGuesses_inactive rest _ (hinact h1)]
      dsimp only
      rw [hstep]
      simp [h1, winCount]
    · have h1' : winCondB (guessLetter c s).1 = false := by simpa using h1
      by_cases h2 : (guessLetter c s).1.isGameActive = true
      · rw [hstep, ih (guessLetter c s).1 h2 h1']
        simp [h1']
      · have h2' : (guessLetter c s).1.isGameActive = false := by simpa using h2
        rw [runGuesses_inactive rest _ h2']
        dsimp only
        rw [hstep]
        simp [h1', winCount]

theorem checkGameStatus_guessed (s : GameState) :
    (checkGameStatus s).1.guessedLetters = s.guessedLetters := by
  by_cases ha : s.isGameActive = true
  · by_cases hw : winCondB s = true
    · exact (checkGameStatus_win s ha hw).2.2.2.1
    · have hw' : winCondB s = false := by simpa using hw
      by_cases ht : s.troops ≤ 0
      · rw [checkGameStatus_loss s ha hw' ht]
      · rw [checkGameStatus_none s ha hw' ht]
  · rw [checkGameStatus_inactive s (by simpa using ha)]

theorem checkGameStatus_troops (s : GameState) :
    (checkGameStatus s).1.troops = s.troops ∧
    ((checkGameStatus s).1.isGameActive = true →
      s.isGameActive = true ∧ ¬ s.troops ≤ 0) := by
  by_cases ha : s.isGameActive = true
  · by_cases hw : winCondB s = true
    · obtain ⟨hact, _, _, _, _, htr, _⟩ := checkGameStatus_win s ha hw
      refine ⟨htr, fun hcon => ?_⟩
      rw [hact] at hcon
      exact absurd hcon Bool.false_ne_true
    · have hw' : winCondB s = false := by simpa using hw
      by_cases ht : s.troops ≤ 0
      · rw [checkGameStatus_loss s ha hw' ht]
        refine ⟨rfl, fun hcon => ?_⟩
        simp at hcon
      · rw [checkGameStatus_none s ha hw' ht]
        exact ⟨rfl, fun _ => ⟨ha, ht⟩⟩
  · rw [checkGameStatus_inactive s (by simpa using ha)]
    exact ⟨rfl, fun hcon => absurd hcon ha⟩

theorem saveCount_append (a b : List Effect) :
    saveCount (a ++ b) = saveCount a + saveCount b := List.countP_append _ _ _

theorem checkGameStatus_bestStreak (s : GameState) :
    s.bestStreak ≤ (checkGameStatus s).1.bestStreak ∧
    (s.bestStreak < (checkGameStatus s).1.bestStreak →
      1 ≤ saveCount (checkGameStatus s).2) := by
  by_cases ha : s.isGameActive = true
  · by_cases hw : winCondB s = true
    · obtain ⟨_, _, hbs, _, _, _, _, _, _, hsv⟩ := checkGameStatus_win s ha hw
      rw [hbs]
      exact ⟨le_max_left _ _, fun _ => hsv⟩
    · have hw' : winCondB s = false := by simpa using hw
      by_cases ht : s.troops ≤ 0
      · rw [checkGameStatus_loss s ha hw' ht]
        exact ⟨le_refl _, fun hcon => absurd hcon (lt_irrefl _)⟩
      · rw [checkGameStatus_none s ha hw' ht]
        exact ⟨le_refl _, fun hcon => absurd hcon (lt_irrefl _)⟩
  · rw [checkGameStatus_inactive s (by simpa using ha)]
    exact ⟨le_refl _, fun hcon => absurd hcon (lt_irrefl _)⟩

theorem guessLetter_bestStreak (c : Char) (s : GameState) :
    s.bestStreak ≤ (guessLetter c s).1.bestStreak ∧
    (s.bestStreak < (guessLetter c s).1.bestStreak →
      1 ≤ saveCount (guessLetter c s).2) := by
  by_cases ha : s.isGameActive = true
  · by_cases hc : s.guessedLetters.contains (jsUpperChar c) = true
    · rw [guessLetter_dup c s ha hc]
      exact ⟨le_refl _, fun hcon => absurd hcon (lt_irrefl _)⟩
    · have hc' : s.guessedLetters.contains (jsUpperChar c) = false := by simpa using hc
      by_cases ht : s.targetWord.contains (jsUpperChar c) = true
      · rw [guessLetter_correct c s ha hc' ht]
        exact checkGameStatus_bestStreak
          { s with guessedLetters := s.guessedLetters ++ [jsUpperChar c] }
      · have ht' : s.targetWord.contains (jsUpperChar c) = false := by simpa using ht
        rw [guessLetter_wrong c s ha hc' ht']
        exact checkGameStatus_bestStreak
          { s with guessedLetters := s.guessedLetters ++ [jsUpperChar c],
                   troops := s.troops - 1, currentStreak := 0 }
  · rw [guessLetter_inactive c s (by simpa using ha)]
    exact ⟨le_refl _, fun hcon => absurd hcon (lt_irrefl _)⟩

theorem runGuesses_bestStreak (gs : List Char) :
    ∀ s : GameState, s.bestStreak ≤ (runGuesses gs s).1.bestStreak := by
  induction gs with
  | nil => intro s; exact le_refl _
  | cons c rest ih =>
    intro s
    show s.bestStreak ≤ (runGuesses rest (guessLetter c s).1).1.bestStreak
    exact le_trans (guessLetter_bestStreak c s).1 (ih (guessLetter c s).1)

theorem guessLetter_troopsInv (c : Char) (s : GameState) (h : troopsInv s) :
    troopsInv (guessLetter c s).1 ∧ (guessLetter c s).1.troops ≤ s.troops := by
  obtain ⟨h0, h3, hact⟩ := h
  by_cases ha : s.isGameActive = true
  · by_cases hc : s.guessedLetters.contains (jsUpperChar c) = true
    · rw [guessLetter_dup c s ha hc]
      exact ⟨⟨h0, h3, hact⟩, le_refl _⟩
    · have hc' : s.guessedLetters.contains (jsUpperChar c) = false := by simpa using hc
      by_cases ht : s.targetWord.contains (jsUpperChar c) = true
      · rw [guessLetter_correct c s ha hc' ht]
        obtain ⟨htr, himp⟩ := checkGameStatus_troops
          { s with guessedLetters := s.guessedLetters ++ [jsUpperChar c] }
        have htr2 :
            ({ s with guessedLetters := s.guessedLetters ++ [jsUpperChar c] } :
              GameState).troops = s.troops := rfl
        rw [htr2] at htr himp
        refine ⟨⟨?_, ?_, fun hpost => ?_⟩, ?_⟩
        · rw [htr]; exact h0
        · rw [htr]; exact h3
        · rw [htr]
          have hnle := (himp hpost).2
          omega
        · rw [htr]
      · have ht' : s.targetWord.contains (jsUpperChar c) = false := by simpa using ht
        rw [guessLetter_wrong c s ha hc' ht']
        obtain ⟨htr, himp⟩ := checkGameStatus_troops
          { s with guessedLetters := s.guessedLetters ++ [jsUpperChar c],
                   troops := s.troops - 1, currentStreak := 0 }
        have htr2 :
            ({ s with guessedLetters := s.guessedLetters ++ [jsUpperChar c],
                      troops := s.troops - 1, currentStreak := 0 } :
              GameState).troops = s.troops - 1 := rfl
        rw [htr2] at htr himp
        have h1 : (1 : Int) ≤ s.troops := hact ha
        refine ⟨⟨?_, ?_, fun hpost => ?_⟩, ?_⟩
        · rw [htr]; omega
        · rw [htr]; omega
        · rw [htr]
          have hnle := (himp hpost).2
          omega
        · rw [htr]; omega
  · rw [guessLetter_inactive c s (by simpa using ha)]
    exact ⟨⟨h0, h3, hact⟩, le_refl _⟩

theorem runGuesses_troopsInv (gs : List Char) :
    ∀ s : GameState, troopsInv s →
      troopsInv (runGuesses gs s).1 ∧ (runGuesses gs s).1.troops ≤ s.troops := by
  induction gs with
  | nil => intro s h; exact ⟨h, le_refl _⟩
  | cons c rest ih =>
    intro s h
    show troopsInv (runGuesses rest (guessLetter c s).1).1 ∧
      (runGuesses rest (guessLetter c s).1).1.troops ≤ s.troops
    obtain ⟨hstep, hle⟩ := guessLetter_troopsInv c s h
    obtain ⟨hrest, hle2⟩ := ih (guessLetter c s).1 hstep
    exact ⟨hrest, le_trans hle2 hle⟩

theorem fetchedCountries_not_dominated (data : List RawCountry) :
    ∀ c ∈ fetchedCountries data, c.isDominated = false := by
  intro c hc
  obtain ⟨r, _, hr⟩ := List.mem_map.mp hc
  rw [← hr]

theorem mark_filter_names (stored : List String) :
    ∀ (l : List Country), (∀ c ∈ l, c.isDominated = false) →
      (((l.map (fun c =>
            if stored.contains c.name then { c with isDominated := true } else c)).filter
          (fun c => c.isDominated)).map (fun c => c.name))
        = (l.map (fun c => c.name)).filter (fun n => stored.contains n) := by
  intro l
  induction l with
  | nil => intro _; rfl
  | cons a rest ih =>
    intro hall
    have ha := hall a (List.mem_cons_self a rest)
    have htail := fun c hc => hall c (List.mem_cons_of_mem a hc)
    by_cases hc : stored.contains a.name = true
    · simp only [List.map_cons, List.filter_cons, hc, if_pos]
      rw [ih htail]
    · have hc' : stored.contains a.name = false := by simpa using hc
      simp only [List.map_cons, List.filter_cons, hc', ha, Bool.false_eq_true,
        not_false_iff, if_false]
      rw [ih htail]

/-! ## Claim theorems -/

/-- C5: `normalize` (the source's `cleanWord`) is a pure function
applying, in order: uppercase; removal of parenthesized segments with
surrounding whitespace; Unicode canonical decomposition with
combining-mark stripping; removal of every character that is not an
uppercase Latin letter or a space; trim.  In particular
`normalize("Côte d'Ivoire (disputed)") = "COTE DIVOIRE"`. -/
theorem C5_normalize_pipeline :
    cleanWordStr coteDIvoireDisputed = "COTE DIVOIRE" ∧
    ∀ s : String, cleanWordStr s = String.mk
      (jsTrim (keepLatinSpace (stripCombining (jsNFD (stripParens (jsToUpperCase s.data)))))) :=
  ⟨by decide, fun _ => rfl⟩

/-- C9: `guessLetter` is a no-op (state unchanged, no effects) when the
round is inactive or the uppercased letter was already guessed, and
repeating any guess immediately is a no-op. -/
theorem C9_guess_noop_idempotent :
    ∀ (s : GameState) (c : Char),
      (s.isGameActive = false → guessLetter c s = (s, [])) ∧
      (s.guessedLetters.contains (jsUpperChar c) = true → guessLetter c s = (s, [])) ∧
      guessLetter c (guessLetter c s).1 = ((guessLetter c s).1, []) := by
  intro s c
  refine ⟨fun h => guessLetter_inactive c s h, fun h => ?_, ?_⟩
  · by_cases ha : s.isGameActive = true
    · exact guessLetter_dup c s ha h
    · exact guessLetter_inactive c s (by simpa using ha)
  · by_cases ha : s.isGameActive = true
    · by_cases hc : s.guessedLetters.contains (jsUpperChar c) = true
      · rw [guessLetter_dup c s ha hc]
        exact guessLetter_dup c s ha hc
      · have hc' : s.guessedLetters.contains (jsUpperChar c) = false := by simpa using hc
        have hmem : ∀ t : GameState,
            t.guessedLetters = s.guessedLetters ++ [jsUpperChar c] →
            t.guessedLetters.contains (jsUpperChar c) = true := by
          intro t hteq
          rw [hteq]
          exact contains_mem.mpr (List.mem_append_right _ (List.mem_singleton.mpr rfl))
        by_cases ht : s.targetWord.contains (jsUpperChar c) = true
        · rw [guessLetter_correct c s ha hc' ht]
          by_cases hact : (checkGameStatus { s with guessedLetters :=
              s.guessedLetters ++ [jsUpperChar c] }).1.isGameActive = true
          · exact guessLetter_dup c _ hact (hmem _ (checkGameStatus_guessed _))
          · exact guessLetter_inactive c _ (by simpa using hact)
        · have ht' : s.targetWord.contains (jsUpperChar c) = false := by simpa using ht
          rw [guessLetter_wrong c s ha hc' ht']
          by_cases hact : (checkGameStatus { s with
              guessedLetters := s.guessedLetters ++ [jsUpperChar c],
              troops := s.troops - 1, currentStreak := 0 }).1.isGameActive = true
          · exact guessLetter_dup c _ hact (hmem _ (checkGameStatus_guessed _))
          · exact guessLetter_inactive c _ (by simpa using hact)
    · rw [guessLetter_inactive c s (by simpa using ha)]
      exact guessLetter_inactive c s (by simpa using ha)

/-- C9 witness: on a concrete inactive state, repeating a guess is the
identity. -/
theorem C9_witness : guessLetter 'A' sInactive = (sInactive, []) :=
  (C9_guess_noop_idempotent sInactive 'A').1 rfl

/-- C10: quitting to the continent map deactivates the round
(subsequent `guessLetter` calls are no-ops) and resets `currentStreak`
to `0` even though no wrong guess occurred, while `bestStreak`,
continent progress, the country list and the dominated list are
unchanged. -/
theorem C10_backToMap_quits_round :
    ∀ s : GameState,
      (backToMap s).isGameActive = false ∧
      (backToMap s).currentStreak = 0 ∧
      (backToMap s).bestStreak = s.bestStreak ∧
      (∀ c, (backToMap s).continentStatus c = s.continentStatus c) ∧
      (backToMap s).countries = s.countries ∧
      (backToMap s).dominated = s.dominated ∧
      (∀ c, guessLetter c (backToMap s) = (backToMap s, [])) := by
  intro s
  exact ⟨rfl, rfl, rfl, fun _ => rfl, rfl, rfl,
    fun c => guessLetter_inactive c (backToMap s) rfl⟩

/-- C2 counterexample: a correct guess that completes the word changes
`currentStreak` (it increments), contradicting the claim that
`currentStreak` is unchanged whenever `targetWord` contains the
letter. -/
theorem C2_counterexample :
    (mkRound "P" 5).isGameActive = true ∧
    (mkRound "P" 5).guessedLetters.contains (jsUpperChar 'P') = false ∧
    (mkRound "P" 5).targetWord.contains (jsUpperChar 'P') = true ∧
    ¬ (guessLetter 'P' (mkRound "P" 5)).1.currentStreak
        = (mkRound "P" 5).currentStreak := by
  decide

/-- C2 (amended): during an active round (one whose win condition does
not already hold) with a letter not previously guessed: a wrong guess
decrements `troopsRemaining` by exactly `1` and zeroes `currentStreak`
in the immediate post-state, whatever happens to the round afterwards;
a correct guess leaves `troopsRemaining` unchanged and leaves
`currentStreak` unchanged unless it completes the word, in which case
`currentStreak` increments by `1`. -/
theorem C2_guess_cost :
    ∀ (s : GameState) (c : Char),
      s.isGameActive = true →
      s.guessedLetters.contains (jsUpperChar c) = false →
      winCondB s = false →
      (s.targetWord.contains (jsUpperChar c) = false →
        (guessLetter c s).1.troops = s.troops - 1 ∧
        (guessLetter c s).1.currentStreak = 0) ∧
      (s.targetWord.contains (jsUpperChar c) = true →
        (guessLetter c s).1.troops = s.troops ∧
        (winCondB (guessLetter c s).1 = false →
          (guessLetter c s).1.currentStreak = s.currentStreak) ∧
        (winCondB (guessLetter c s).1 = true →
          (guessLetter c s).1.currentStreak = s.currentStreak + 1)) := by
  intro s c ha hc hw
  constructor
  · intro ht
    rw [guessLetter_wrong c s ha hc ht]
    set s2 : GameState :=
      { s with guessedLetters := s.guessedLetters ++ [jsUpperChar c],
               troops := s.troops - 1, currentStreak := 0 } with hs2
    have ha2 : s2.isGameActive = true := ha
    have hw2 : winCondB s2 = false := by
      have e1 : winCondB s2 =
          winCondB { s with guessedLetters := s.guessedLetters ++ [jsUpperChar c] } :=
        winCondB_eq { s with guessedLetters := s.guessedLetters ++ [jsUpperChar c] } s2
          rfl rfl
      rw [e1, winCondB_irrelevant s _ ht]
      exact hw
    by_cases ht0 : s2.troops ≤ 0
    · rw [checkGameStatus_loss s2 ha2 hw2 ht0]
      exact ⟨rfl, rfl⟩
    · rw [checkGameStatus_none s2 ha2 hw2 ht0]
      exact ⟨rfl, rfl⟩
  · intro ht
    rw [guessLetter_correct c s ha hc ht]
    set s1 : GameState :=
      { s with guessedLetters := s.guessedLetters ++ [jsUpperChar c] } with hs1
    have ha1 : s1.isGameActive = true := ha
    have hcg := checkGameStatus_winCondB s1
    by_cases hw1 : winCondB s1 = true
    · obtain ⟨_, hstreak, _, _, _, htroops, _⟩ := checkGameStatus_win s1 ha1 hw1
      refine ⟨htroops, fun hcon => ?_, fun _ => hstreak⟩
      rw [hcg, hw1] at hcon
      exact absurd hcon.symm Bool.false_ne_true
    · have hw1' : winCondB s1 = false := by simpa using hw1
      by_cases ht0 : s1.troops ≤ 0
      · rw [checkGameStatus_loss s1 ha1 hw1' ht0]
        refine ⟨rfl, fun _ => rfl, fun hcon => ?_⟩
        have hcon' : winCondB s1 = true := hcon
        rw [hw1'] at hcon'
        exact absurd hcon' Bool.false_ne_true
      · rw [checkGameStatus_none s1 ha1 hw1' ht0]
        refine ⟨rfl, fun _ => rfl, fun hcon => ?_⟩
        have hcon' : winCondB s1 = true := hcon
        rw [hw1'] at hcon'
        exact absurd hcon' Bool.false_ne_true

/-- C2 witness: a concrete wrong guess costs one troop and zeroes the
streak. -/
theorem C2_witness :
    (guessLetter 'X' (mkRound "AB" 4)).1.troops = 3 - 1 ∧
    (guessLetter 'X' (mkRound "AB" 4)).1.currentStreak = 0 := by
  have h := C2_guess_cost (mkRound "AB" 4) 'X' rfl (by decide) (by decide)
  exact h.1 (by decide)

/-- C3: `troopsRemaining` starts each round at `3` (when an
undominated country is available), and under any guess it stays in
`[0, 3]`, is non-increasing, and is at least `1` while the round is
still active (so a deactivated round at `0` can never be decremented
again); the same holds along any sequence of guesses. -/
theorem C3_troops_bounds :
    (∀ (pick : Nat) (s : GameState),
        s.countries.filter (fun c => !c.isDominated) ≠ [] →
        (newRound pick s).1.troops = 3 ∧ (newRound pick s).1.isGameActive = true) ∧
    (∀ (c : Char) (s : GameState), troopsInv s →
        troopsInv (guessLetter c s).1 ∧ (guessLetter c s).1.troops ≤ s.troops) ∧
    (∀ (gs : List Char) (s : GameState), troopsInv s →
        troopsInv (runGuesses gs s).1 ∧ (runGuesses gs s).1.troops ≤ s.troops) := by
  refine ⟨?_, guessLetter_troopsInv, fun gs => runGuesses_troopsInv gs⟩
  intro pick s hne
  unfold newRound
  rw [if_neg (fun h => hne (List.length_eq_zero.mp h))]
  dsimp only
  rw [renderStreak_fst]
  exact ⟨rfl, rfl⟩

/-- C3 witness: four guesses on a fresh concrete round keep the
invariant and do not increase the troop count. -/
theorem C3_witness :
    troopsInv (runGuesses ['X', 'Y', 'Z', 'W'] (mkRound "PERU" 0)).1 ∧
    (runGuesses ['X', 'Y', 'Z', 'W'] (mkRound "PERU" 0)).1.troops ≤ 3 :=
  C3_troops_bounds.2.2 ['X', 'Y', 'Z', 'W'] (mkRound "PERU" 0)
    ⟨by decide, by decide, fun _ => by decide⟩

/-- C4 counterexample: a country win with `currentStreak` below the
stored best invokes `save` (to persist continent progress) without any
increase of `bestStreak`, contradicting "save is not invoked at any
other time". -/
theorem C4_counterexample :
    (guessLetter 'P' (mkRound "P" 5)).1.bestStreak = (mkRound "P" 5).bestStreak ∧
    1 ≤ saveCount (guessLetter 'P' (mkRound "P" 5)).2 := by
  decide

/-- C4 (amended): `bestStreak` is monotonically non-decreasing under
every operation, and any `guessLetter` or `newRound` call that
increases it also emits a `save`; but `save` is additionally invoked
without a `bestStreak` increase (country wins, continent domination,
the global reset).  Quitting to the map, continent completion and the
global-victory reset leave `bestStreak` unchanged. -/
theorem C4_bestStreak_monotone :
    (∀ (c : Char) (s : GameState),
        s.bestStreak ≤ (guessLetter c s).1.bestStreak ∧
        (s.bestStreak < (guessLetter c s).1.bestStreak →
          1 ≤ saveCount (guessLetter c s).2)) ∧
    (∀ (gs : List Char) (s : GameState),
        s.bestStreak ≤ (runGuesses gs s).1.bestStreak) ∧
    (∀ (pick : Nat) (s : GameState),
        s.bestStreak ≤ (newRound pick s).1.bestStreak ∧
        (s.bestStreak < (newRound pick s).1.bestStreak →
          1 ≤ saveCount (newRound pick s).2)) ∧
    (∀ s : GameState, (backToMap s).bestStreak = s.bestStreak) ∧
    (∀ s : GameState, (handleContinentWin s).1.bestStreak = s.bestStreak) ∧
    (∀ w : World, (globalVictoryAck w).game.bestStreak = w.game.bestStreak) := by
  refine ⟨guessLetter_bestStreak, fun gs => runGuesses_bestStreak gs, ?_, fun _ => rfl,
    ?_, fun _ => rfl⟩
  · intro pick s
    unfold newRound
    by_cases hlen : (s.countries.filter (fun c => !c.isDominated)).length = 0
    · rw [if_pos hlen]
      unfold handleContinentWin
      dsimp only
      split
      · exact ⟨le_refl _, fun hcon => absurd hcon (lt_irrefl _)⟩
      · exact ⟨le_refl _, fun hcon => absurd hcon (lt_irrefl _)⟩
    · rw [if_neg hlen]
      dsimp only
      rw [renderStreak_fst]
      exact ⟨le_max_left _ _, fun h => renderStreak_save_of_increase _
        (by rw [renderStreak_fst]; exact h)⟩
  · intro s
    unfold handleContinentWin
    dsimp only
    split
    · rfl
    · rfl

/-- C4 witness: a concrete win that raises `bestStreak` emits a save,
via the monotone-increase clause. -/
theorem C4_witness :
    1 ≤ saveCount (guessLetter 'P' (mkRound "P" 0)).2 :=
  (C4_bestStreak_monotone.1 'P' (mkRound "P" 0)).2 (by decide)

/-- C1: on one `checkGameStatus` update of an active round with a
non-empty `targetWord`, the win signal fires iff every non-space
character of `targetWord` has been guessed, the loss signal fires iff
that win condition fails and `troopsRemaining ≤ 0`, and the win check
comes first (a winning state never signals loss); along any sequence of
guesses from a round whose win condition does not yet hold, the win
signal is emitted exactly once if the run reaches the win condition and
never otherwise. -/
theorem C1_round_win_loss :
    (∀ s : GameState, s.isGameActive = true → s.targetWord ≠ [] →
      (hasWin (checkGameStatus s).2 = true ↔ winCondB s = true) ∧
      (hasLoss (checkGameStatus s).2 = true ↔ winCondB s = false ∧ s.troops ≤ 0) ∧
      (winCondB s = true → hasLoss (checkGameStatus s).2 = false)) ∧
    (∀ (gs : List Char) (s : GameState),
      s.isGameActive = true → winCondB s = false →
      winCount (runGuesses gs s).2 =
        (if winCondB (runGuesses gs s).1 = true then 1 else 0)) := by
  refine ⟨?_, fun gs s ha hw => runGuesses_winCount gs s ha hw⟩
  intro s ha _
  by_cases hw : winCondB s = true
  · obtain ⟨_, _, _, _, _, _, _, hW, hL, _⟩ := checkGameStatus_win s ha hw
    refine ⟨⟨fun _ => hw, fun _ => hW⟩, ⟨fun hcon => ?_, fun hcon => ?_⟩, fun _ => hL⟩
    · rw [hL] at hcon
      exact absurd hcon Bool.false_ne_true
    · rw [hw] at hcon
      exact absurd hcon.1.symm Bool.false_ne_true
  · have hw' : winCondB s = false := by simpa using hw
    by_cases ht : s.troops ≤ 0
    · rw [checkGameStatus_loss s ha hw' ht]
      refine ⟨⟨fun hcon => ?_, fun hcon => absurd hcon hw⟩,
        ⟨fun _ => ⟨hw', ht⟩, fun _ => rfl⟩, fun hcon => absurd hcon hw⟩
      simp [hasWin, Effect.isWin] at hcon
    · rw [checkGameStatus_none s ha hw' ht]
      refine ⟨⟨fun hcon => ?_, fun hcon => absurd hcon hw⟩,
        ⟨fun hcon => ?_, fun hcon => absurd hcon.2 ht⟩, fun hcon => absurd hcon hw⟩
      · simp [hasWin] at hcon
      · simp [hasLoss] at hcon

/-- C1 witness: guessing `P`, `E`, `R`, `U` on a fresh round with
`targetWord = "PERU"` emits the win signal exactly once. -/
theorem C1_witness :
    winCount (runGuesses ['P', 'E', 'R', 'U'] (mkRound "PERU" 0)).2 = 1 := by
  have h := C1_round_win_loss.2 ['P', 'E', 'R', 'U'] (mkRound "PERU" 0) rfl (by decide)
  rw [h]
  decide

/-- C6 counterexample: for the raw name `A & B` the cleaned word is
`A  B`, which contains a run of two consecutive spaces — `cleanWord`
never collapses internal whitespace, so the "single spaces" part of the
claim fails. -/
theorem C6_counterexample :
    cleanWordStr nameAmpB = String.mk ['A', ' ', ' ', 'B'] ∧
    noDoubleSpace (cleanWordStr nameAmpB).data = false := by
  decide

/-- C6 (amended): for every raw country name, the cleaned `targetWord`
contains only uppercase Latin letters and whitespace-class characters,
with no leading or trailing whitespace; runs of consecutive internal
spaces may remain (removal of other characters does not merge the
spaces around them).  `newRound` sets `targetWord` to exactly
`cleanWord` of the chosen (not yet dominated) country's name. -/
theorem C6_targetWord_charset :
    (∀ (name : String) (c : Char), c ∈ (cleanWordStr name).data →
      isUpperAZ c = true ∨ jsWs c = true) ∧
    (∀ (name : String) (c : Char), (cleanWordStr name).data.head? = some c →
      jsWs c = false) ∧
    (∀ (name : String) (c : Char), (cleanWordStr name).data.getLast? = some c →
      jsWs c = false) ∧
    (∀ (pick : Nat) (s : GameState),
      s.countries.filter (fun c => !c.isDominated) ≠ [] →
      ∃ cty ∈ s.countries, cty.isDominated = false ∧
        (newRound pick s).1.targetWord = cleanWord cty.name.data) := by
  refine ⟨fun name c hmem => mem_cleanWord_charset hmem,
    fun name c hh => jsTrim_head hh, fun name c hh => jsTrim_getLast hh, ?_⟩
  intro pick s hne
  unfold newRound
  rw [if_neg (fun h => hne (List.length_eq_zero.mp h))]
  dsimp only
  rw [renderStreak_fst]
  have hlen : 0 < (s.countries.filter (fun c => !c.isDominated)).length := by
    rcases Nat.eq_zero_or_pos (s.countries.filter (fun c => !c.isDominated)).length with h | h
    · exact absurd (List.length_eq_zero.mp h) hne
    · exact h
  have hidx : pick % (s.countries.filter (fun c => !c.isDominated)).length
      < (s.countries.filter (fun c => !c.isDominated)).length := Nat.mod_lt _ hlen
  have hget : (s.countries.filter (fun c => !c.isDominated)).getD
      (pick % (s.countries.filter (fun c => !c.isDominated)).length) dfltCountry
      = (s.countries.filter (fun c => !c.isDominated)).get ⟨_, hidx⟩ := by
    rw [List.getD_eq_getElem?_getD, List.getElem?_eq_getElem hidx]
    rfl
  have hmem := (s.countries.filter (fun c => !c.isDominated)).get_mem _ hidx
  obtain ⟨hin, hdom⟩ := List.mem_filter.mp hmem
  refine ⟨(s.countries.filter (fun c => !c.isDominated)).get ⟨_, hidx⟩, hin,
    by simpa using hdom, ?_⟩
  rw [hget]

/-- C6 witness: concrete instances — the char of the one-letter clean
word ` A ` is a non-whitespace head, and a fresh concrete round takes
its `targetWord` from `cleanWord`. -/
theorem C6_witness :
    jsWs 'A' = false ∧
    ∃ cty ∈ (mkRound "PERU" 0).countries, cty.isDominated = false ∧
      (newRound 0 (mkRound "PERU" 0)).1.targetWord = cleanWord cty.name.data := by
  constructor
  · exact C6_targetWord_charset.2.1 (String.mk ['*', 'A', '*']) 'A' (by decide)
  · exact C6_targetWord_charset.2.2.2 0 (mkRound "PERU" 0) (by decide)

/-- C7: on a successful continent load where the continent has stored
in-progress dominated names, exactly the fetched records whose names
appear in the stored list are marked dominated, and the rebuilt
dominated list is the intersection (in fetch order) of fetched names
with stored names; stored names absent from the fetch are dropped. -/
theorem C7_loadContinent_merge :
    ∀ (cont : Continent) (data : List RawCountry) (s : GameState)
      (st : String) (stored : List String) (s2 : GameState),
      s.continentStatus cont = some (.obj st stored) →
      loadContinentCore cont data s = some s2 →
      (∀ c ∈ s2.countries, c.isDominated = true ↔ c.name ∈ stored) ∧
      s2.dominated = ((fetchedCountries data).map (fun c => c.name)).filter
        (fun n => stored.contains n) ∧
      (∀ n ∈ stored, n ∉ (fetchedCountries data).map (fun c => c.name) →
        n ∉ s2.dominated) := by
  intro cont data s st stored s2 hst hload
  unfold loadContinentCore at hload
  dsimp only at hload
  rw [hst] at hload
  by_cases hlen : (fetchedCountries data).length = 0
  · rw [if_pos hlen] at hload
    exact absurd hload (by simp)
  · rw [if_neg hlen] at hload
    injection hload with hload
    have hcty : s2.countries = (fetchedCountries data).map (fun c =>
        if stored.contains c.name then { c with isDominated := true } else c) := by
      rw [← hload]
    have hdomeq : s2.dominated =
        (((fetchedCountries data).map (fun c =>
          if stored.contains c.name then { c with isDominated := true } else c)).filter
            (fun c => c.isDominated)).map (fun c => c.name) := by
      rw [← hload]
    have hmain := mark_filter_names stored (fetchedCountries data)
      (fetchedCountries_not_dominated data)
    refine ⟨?_, ?_, ?_⟩
    · intro c hc
      rw [hcty] at hc
      obtain ⟨c0, hc0, hmk⟩ := List.mem_map.mp hc
      have h0 : c0.isDominated = false := fetchedCountries_not_dominated data c0 hc0
      by_cases hin : stored.contains c0.name = true
      · rw [if_pos hin] at hmk
        rw [← hmk]
        exact ⟨fun _ => contains_mem.mp hin, fun _ => rfl⟩
      · have hin' : stored.contains c0.name = false := by simpa using hin
        rw [if_neg (by rw [hin']; exact Bool.false_ne_true)] at hmk
        rw [← hmk]
        refine ⟨fun hcon => ?_, fun hcon => ?_⟩
        · rw [h0] at hcon
          exact absurd hcon Bool.false_ne_true
        · exact absurd (contains_mem.mpr hcon) (by rw [hin']; exact Bool.false_ne_true)
    · rw [hdomeq]
      exact hmain
    · intro n hns hnf
      rw [hdomeq, hmain]
      intro hcon
      exact absurd (List.mem_filter.mp hcon).1 hnf

/-- C7 witness: loading `Ghana`/`Togo` against stored
`["Ghana", "Kenya"]` marks exactly `Ghana` and drops the stale
`Kenya`. -/
theorem C7_witness :
    c7result.dominated = ["Ghana"] ∧
    (∀ c ∈ c7result.countries, c.isDominated = true ↔ c.name ∈ ["Ghana", "Kenya"]) ∧
    "Kenya" ∉ c7result.dominated := by
  have h := C7_loadContinent_merge .africa c7data c7state "in-progress"
    ["Ghana", "Kenya"] c7result rfl rfl
  refine ⟨?_, h.1, ?_⟩
  · rw [h.2.1]
    decide
  · exact h.2.2 "Kenya" (by decide) (by decide)

/-- C8: with all five continents dominated and the store in sync with
the in-memory best streak, acknowledging the global-victory signal
resets every continent's status to `available` both in memory and in
the persisted store, while `bestStreak` — in memory and in the
persisted snapshot, the only other persisted field — is unchanged. -/
theorem C8_global_reset :
    ∀ w : World,
      (∀ c, w.game.continentStatus c = some (.str "dominated")) →
      w.store.best = some w.game.bestStreak →
      (∀ c, (globalVictoryAck w).game.continentStatus c = some (.str "available")) ∧
      (∀ c, (globalVictoryAck w).store.status c = some (.str "available")) ∧
      (globalVictoryAck w).game.bestStreak = w.game.bestStreak ∧
      (globalVictoryAck w).store.best = w.store.best := by
  intro w _ hsync
  exact ⟨fun c => rfl, fun c => rfl, rfl, hsync.symm⟩

/-- C8 witness: the concrete all-dominated session resets to
all-available with `bestStreak` still `7`. -/
theorem C8_witness :
    (∀ c, (globalVictoryAck wAllDominated).game.continentStatus c
      = some (.str "available")) ∧
    (globalVictoryAck wAllDominated).game.bestStreak = 7 := by
  have h := C8_global_reset wAllDominated (fun c => rfl) rfl
  exact ⟨h.1, h.2.2.1⟩
